import Mathlib

/-!
Verification of the diff-position resolution and review-aggregation engine.

Strings are embedded as `List Char` (one JavaScript string = one list of
characters); JavaScript string methods (`split('\n')`, `startsWith`,
`trim`, regex searches) are translated into executable functions on
character lists.  Machine numbers are `Nat`/`Int`.
-/

set_option maxHeartbeats 1000000

abbrev Str := List Char

/-- JavaScript whitespace characters (the ones relevant to `trim` and `\s`). -/
def isWsChar (c : Char) : Bool :=
  c = ' ' || c = '\t' || c = '\n' || c = '\r' || c = '\x0b' || c = '\x0c'

def isDigitC (c : Char) : Bool :=
  '0' ≤ c && c ≤ '9'

/-- `hasPre p s` holds when the list `s` starts with `p` (JS `startsWith`). -/
def hasPre : Str → Str → Bool
  | [], _ => true
  | _ :: _, [] => false
  | p :: ps, c :: cs => p = c && hasPre ps cs

/-- Strip a mandatory leading segment, or fail. -/
def dropPre (p s : Str) : Option Str :=
  if hasPre p s then some (s.drop p.length) else none

/-- JS `String.prototype.split('\n')`: the empty string yields `[""]`. -/
def splitNl : Str → List Str
  | [] => [[]]
  | c :: rest =>
    match splitNl rest with
    | [] => [[]]
    | l :: ls => if c = '\n' then [] :: l :: ls else (c :: l) :: ls

/-- JS `String.prototype.trim`. -/
def trimWs (s : Str) : Str :=
  ((s.dropWhile isWsChar).reverse.dropWhile isWsChar).reverse

/-- Maximal digit run at the head of the list, and the remainder (`\d*`). -/
def digitsRun (s : Str) : Str × Str :=
  (s.takeWhile isDigitC, s.dropWhile isDigitC)

/-- `parseInt(·, 10)` on a string of decimal digits. -/
def parseDigits (ds : Str) : Nat :=
  ds.foldl (fun a c => a * 10 + (c.toNat - 48)) 0

def natStr (n : Nat) : Str := (Nat.repr n).data

def intStr (i : Int) : Str := (Int.repr i).data

/-- First occurrence of a segment: `findSeg seg s = some (p, r)` with
`s = p ++ seg ++ r`, choosing the leftmost occurrence. -/
def findSeg (seg : Str) : Str → Option (Str × Str)
  | [] => if seg.isEmpty then some ([], []) else none
  | c :: cs =>
    if hasPre seg (c :: cs) then some ([], (c :: cs).drop seg.length)
    else
      match findSeg seg cs with
      | some (p, r) => some (c :: p, r)
      | none => none

/-- JS `String.prototype.includes`. -/
def segB (seg : Str) : Str → Bool
  | [] => seg.isEmpty
  | c :: cs => hasPre seg (c :: cs) || segB seg cs

/-- `l.join(sep)` for a list of strings. -/
def joinSep (sep : Str) : List Str → Str
  | [] => []
  | [x] => x
  | x :: y :: rest => x ++ sep ++ joinSep sep (y :: rest)

/-- Non-overlapping global replacement (JS `replace(/pat/g, rep)` for a
literal pattern). -/
def replaceSeg (pat rep : Str) : Str → Str
  | [] => []
  | c :: cs =>
    if hasPre pat (c :: cs) then rep ++ replaceSeg pat rep (cs.drop (pat.length - 1))
    else c :: replaceSeg pat rep cs
termination_by s => s.length
decreasing_by
  · simp only [List.length_drop, List.length_cons]
    omega
  · simp only [List.length_cons]
    omega

/-- JS `toUpperCase` (ASCII). -/
def upperStr (s : Str) : Str := s.map Char.toUpper

/-- Concatenation of the renderings of a list of items, in order (the
`forEach (f => body += ...)` loops). -/
def concatStr (g : α → Str) : List α → Str
  | [] => []
  | x :: xs => g x ++ concatStr g xs

/-- A segment occurring somewhere inside a string. -/
def SegIn (seg s : Str) : Prop := ∃ p r, s = p ++ seg ++ r

/-! ## Diff position resolver (src/providers.ts, ReviewEngineCore) -/

/-- Anchored attempt of the lax hunk-header regex `@@ -\d+,\d+ \+(\d+)` used
by `getPositionInDiff`; returns the captured new-file start. -/
def laxHeaderAt (s : Str) : Option Nat :=
  match dropPre (('@' :: '@' :: ' ' :: '-' :: [])) s with
  | none => none
  | some r1 =>
    let (d1, r2) := digitsRun r1
    if d1.isEmpty then none
    else
      match r2 with
      | ',' :: r3 =>
        let (d2, r4) := digitsRun r3
        if d2.isEmpty then none
        else
          match dropPre ((' ' :: '+' :: [])) r4 with
          | none => none
          | some r5 =>
            let (d3, _) := digitsRun r5
            if d3.isEmpty then none else some (parseDigits d3)
      | _ => none

/-- Unanchored search of the lax hunk-header regex (JS `String.match`
without anchors: leftmost match wins). -/
def laxHeaderSearch : Str → Option Nat
  | [] => none
  | c :: cs =>
    match laxHeaderAt (c :: cs) with
    | some n => some n
    | none => laxHeaderSearch cs

/-- Anchored attempt of the strict hunk-header regex
`@@ -\d+,\d+ \+(\d+),(\d+) @@` (used by `isLineInHunk`); returns the
captured new-file start and length together with the rest of the input
after the match. -/
def strictHeaderAt (s : Str) : Option (Nat × Nat × Str) :=
  match dropPre (('@' :: '@' :: ' ' :: '-' :: [])) s with
  | none => none
  | some r1 =>
    let (d1, r2) := digitsRun r1
    if d1.isEmpty then none
    else
      match r2 with
      | ',' :: r3 =>
        let (d2, r4) := digitsRun r3
        if d2.isEmpty then none
        else
          match dropPre ((' ' :: '+' :: [])) r4 with
          | none => none
          | some r5 =>
            let (d3, r6) := digitsRun r5
            if d3.isEmpty then none
            else
              match r6 with
              | ',' :: r7 =>
                let (d4, r8) := digitsRun r7
                if d4.isEmpty then none
                else
                  match dropPre ((' ' :: '@' :: '@' :: [])) r8 with
                  | none => none
                  | some r9 => some (parseDigits d3, parseDigits d4, r9)
              | _ => none
      | _ => none

/-- All (non-overlapping, leftmost-first) strict hunk headers of a patch,
as `(startLine, numLines)` pairs — the loop of `isLineInHunk` driven by
`hunkRegex.exec`.  The fuel argument is the input length. -/
def strictHeadersGo : Nat → Str → List (Nat × Nat)
  | 0, _ => []
  | _ + 1, [] => []
  | fuel + 1, c :: cs =>
    match strictHeaderAt (c :: cs) with
    | some (n, q, rest) => (n, q) :: strictHeadersGo fuel rest
    | none => strictHeadersGo fuel cs

def hunkRanges (patch : Str) : List (Nat × Nat) :=
  strictHeadersGo patch.length patch

/-- `ReviewEngineCore.isLineInHunk` (src/providers.ts lines 29–42). -/
def isLineInHunk (patch : Str) (line : Int) : Bool :=
  (hunkRanges patch).any fun r => (r.1 : Int) ≤ line && line < (r.1 : Int) + (r.2 : Int)

/-- The scanning loop of `getPositionInDiff` over the split lines:
`currentLine` and 1-based `position` are the two counters of the source. -/
def gpdGo (target : Int) : List Str → Int → Nat → Option Nat
  | [], _, _ => none
  | l :: ls, currentLine, position =>
    let position := position + 1
    if hasPre (('@' :: '@' :: [])) l then
      match laxHeaderSearch l with
      | some n => gpdGo target ls ((n : Int) - 1) position
      | none => gpdGo target ls currentLine position
    else if hasPre (('+' :: [])) l || hasPre ((' ' :: [])) l then
      let currentLine := currentLine + 1
      if currentLine = target then some position
      else gpdGo target ls currentLine position
    else gpdGo target ls currentLine position

/-- `ReviewEngineCore.getPositionInDiff` (src/providers.ts lines 44–73). -/
def getPositionInDiff (patch : Str) (targetLine : Int) : Option Nat :=
  gpdGo targetLine (splitNl patch) 0 0

/-! ## The reference walk of spec §4.1, as the claims state it. -/

/-- Spec-modelled header recognizer: the spec's walk resets only on a
hunk header of the full form `@@ -o,p +n,q @@` (trailing text allowed). -/
def specHeaderStrict (l : Str) : Option Nat :=
  match strictHeaderAt l with
  | some (n, _, _) => some n
  | none => none

/-- Amended header recognizer: any line starting with `@@` in which the lax
pattern `@@ -o,p +n` occurs resets the counter (the `,q @@` tail is not
required); a line starting with `@@` without such a match resets nothing. -/
def specHeaderLax (l : Str) : Option Nat :=
  if hasPre (('@' :: '@' :: [])) l then laxHeaderSearch l else none

def specEligible (l : Str) : Bool :=
  hasPre (('+' :: [])) l || hasPre ((' ' :: [])) l

/-- One step of the reference walk, parameterized by the header
recognizer.  State: current new-file line, position counter, first match. -/
def specStep (hdr : Str → Option Nat) (target : Int)
    (st : Int × Nat × Option Nat) (l : Str) : Int × Nat × Option Nat :=
  let cur := st.1
  let pos := st.2.1 + 1
  let found := st.2.2
  match hdr l with
  | some n => ((n : Int) - 1, pos, found)
  | none =>
    if specEligible l then
      let cur := cur + 1
      (cur, pos, if found.isSome then found else if cur = target then some pos else none)
    else (cur, pos, found)

/-- The reference walk of spec §4.1 (strict headers, as written). -/
def specResolve (patch : Str) (target : Int) : Option Nat :=
  ((splitNl patch).foldl (specStep specHeaderStrict target) (0, 0, none)).2.2

/-- The reference walk amended to lax header recognition. -/
def specResolveLax (patch : Str) (target : Int) : Option Nat :=
  ((splitNl patch).foldl (specStep specHeaderLax target) (0, 0, none)).2.2

/-! ## Well-formed patches (for the amended C3) -/

/-- A strict hunk-header line, decomposed: `@@ -o,p +n,q @@` followed by
arbitrary trailing text, where the four digit fields are non-empty digit
strings and `n`, `q` are the parsed new-file start and length. -/
def StrictHeaderLine (l : Str) (n q : Nat) : Prop :=
  ∃ d1 d2 d3 d4 rest,
    (∀ c ∈ d1, isDigitC c = true) ∧ d1 ≠ [] ∧
    (∀ c ∈ d2, isDigitC c = true) ∧ d2 ≠ [] ∧
    (∀ c ∈ d3, isDigitC c = true) ∧ d3 ≠ [] ∧
    (∀ c ∈ d4, isDigitC c = true) ∧ d4 ≠ [] ∧
    l = ('@' :: '@' :: ' ' :: '-' :: []) ++ d1 ++ (',' :: []) ++ d2 ++
        (' ' :: '+' :: []) ++ d3 ++ (',' :: []) ++ d4 ++
        (' ' :: '@' :: '@' :: []) ++ rest ∧
    n = parseDigits d3 ∧ q = parseDigits d4

/-- A hunk-body line: starts with `+`, `-` or a space. -/
def BodyLine (l : Str) : Prop :=
  hasPre (('+' :: [])) l = true ∨ hasPre (('-' :: [])) l = true ∨
  hasPre ((' ' :: [])) l = true

/-- Number of body lines that advance the new-file counter. -/
def countEligible (body : List Str) : Nat :=
  (body.filter specEligible).length

/-- A well-formed unified-diff patch, split into lines: a concatenation of
hunks, each a strict header followed by body lines, where the number of
addition/context lines equals the header's declared new-file length. -/
inductive WFLines : List Str → List (Nat × Nat) → Prop
  | nil : WFLines [] []
  | hunk (header : Str) (body rest : List Str) (n q : Nat) (ranges : List (Nat × Nat)) :
      StrictHeaderLine header n q →
      (∀ l ∈ body, BodyLine l) →
      countEligible body = q →
      WFLines rest ranges →
      WFLines (header :: (body ++ rest)) ((n, q) :: ranges)

/-! ## Finding classifier (src/review-engine.ts, parseReviewResponse filter) -/

/-- A loosely-typed candidate record parsed from model JSON output; a field
that is absent (JS `undefined`) is `none`. -/
structure Candidate where
  severity : Option Str
  category : Option Str
  filename : Option Str
  line : Option Int
  message : Option Str
  suggestion : Option Str
deriving DecidableEq, Repr

/-- JS truthiness of a possibly-absent string field: `undefined` and the
empty string are falsy. -/
def truthyStr : Option Str → Bool
  | none => false
  | some s => !s.isEmpty

/-- The per-candidate test of the validation filter
(src/review-engine.ts lines 198–203): reject if any of the five fields is
falsy, then require `['high','medium'].includes(severity)`. -/
def keepCandidate (f : Candidate) : Bool :=
  if !truthyStr f.severity || !truthyStr f.category || !truthyStr f.filename ||
     !truthyStr f.message || !truthyStr f.suggestion then
    false
  else
    decide (f.severity = some (("high").data)) || decide (f.severity = some (("medium").data))

/-- `validFindings` of `parseReviewResponse`: the validation filter applied
to the parsed candidate array. -/
def validFindings (candidates : List Candidate) : List Candidate :=
  candidates.filter keepCandidate

/-! ## Review aggregator (src/providers.ts, ReviewEngineCore.postReview) -/

/-- A finding as consumed by `ReviewEngineCore.postReview`
(`ReviewFinding`): `severity`, `line` and `suggestion` may be absent. -/
structure RFinding where
  severity : Option Str
  category : Str
  filename : Str
  line : Option Int
  message : Str
  suggestion : Option Str
deriving DecidableEq, Repr

structure FilterStats where
  total : Nat
  reviewed : Nat
  ignored : Nat
  tooLarge : Nat
deriving DecidableEq, Repr

/-- The parts of `PostReviewContext` the body rendering reads. -/
structure PostCtx where
  llmName : Str
  modelName : Str
  filterStats : Option FilterStats
deriving DecidableEq, Repr

def isHighF (f : RFinding) : Bool := decide (f.severity = some (("high").data))

def isMediumF (f : RFinding) : Bool := decide (f.severity = some (("medium").data))

def isLowF (f : RFinding) : Bool := decide (f.severity = some (("low").data))

/-- `!f.severity || (f.severity !== 'high' && f.severity !== 'medium' && f.severity !== 'low')`. -/
def isOtherF (f : RFinding) : Bool :=
  !truthyStr f.severity ||
  (decide (¬ f.severity = some (("high").data)) &&
   decide (¬ f.severity = some (("medium").data)) &&
   decide (¬ f.severity = some (("low").data)))

/-- One bullet entry of the review body (identical rendering in all four
severity sections). -/
def entryLine (f : RFinding) : Str :=
  ("* **[").data ++ upperStr f.category ++ ("]** `").data ++ f.filename ++
  (match f.line with
   | some l => if l = 0 then [] else ':' :: intStr l
   | none => []) ++
  ("`\n  ").data ++ f.message ++ ("\n").data ++
  (match f.suggestion with
   | some s => if s = [] then [] else ("  💡 *").data ++ s ++ ("*\n").data
   | none => []) ++
  ("\n").data

def entriesText (fs : List RFinding) : Str := concatStr entryLine fs

/-- A severity section: header with the bucket size, then the entries;
nothing when the bucket is empty. -/
def sectionFor (title : Str) (bucket : List RFinding) : Str :=
  if bucket = [] then []
  else title ++ natStr bucket.length ++ (")\n").data ++ entriesText bucket

/-- The coverage-statistics block (src/providers.ts lines 87–98). -/
def statsText (ctx : PostCtx) : Str :=
  match ctx.filterStats with
  | none => []
  | some fs =>
    if fs.ignored > 0 || fs.tooLarge > 0 then
      ("📊 **Coverage:** Reviewed ").data ++ natStr fs.reviewed ++ (" of ").data ++
      natStr fs.total ++ (" files").data ++
      (let skipped : List Str :=
        (if fs.ignored > 0 then [natStr fs.ignored ++ (" config/docs").data] else []) ++
        (if fs.tooLarge > 0 then [natStr fs.tooLarge ++ (" too large").data] else [])
       if skipped.length > 0 then (" (").data ++ joinSep ((", ").data) skipped ++ (")").data
       else []) ++
      ("\n\n").data
    else []

/-- The review body built by `ReviewEngineCore.postReview`
(src/providers.ts lines 84–163): header, coverage block, issue count,
then the four severity sections in order. -/
def reviewBody (ctx : PostCtx) (findings : List RFinding) : Str :=
  ("## 🤖 AI Code Review (").data ++ ctx.llmName ++ (" (").data ++ ctx.modelName ++
  ("))\n\n").data ++
  statsText ctx ++
  ("Found ").data ++ natStr findings.length ++ (" issue").data ++
  (if findings.length ≠ 1 then ("s").data else []) ++ (":\n\n").data ++
  sectionFor (("### 🔴 High Priority (").data) (findings.filter isHighF) ++
  sectionFor (("### 🟡 Medium Priority (").data) (findings.filter isMediumF) ++
  sectionFor (("### 🔵 Low Priority (").data) (findings.filter isLowF) ++
  sectionFor (("### 📝 Other Issues (").data) (findings.filter isOtherF)

/-- The body of one inline comment (src/providers.ts line 195). -/
def inlineCommentBody (f : RFinding) : Str :=
  ("**[").data ++
  (match f.severity with
   | some s => if upperStr s = [] then ("ISSUE").data else upperStr s
   | none => ("ISSUE").data) ++
  (" - ").data ++ upperStr f.category ++ ("]** ").data ++ f.message ++
  ("\n\n💡 *Suggestion*: ").data ++
  (match f.suggestion with
   | some s => if s = [] then ("Review and address this issue.").data else s
   | none => ("Review and address this issue.").data)

structure RComment where
  path : Str
  position : Nat
  body : Str
deriving DecidableEq, Repr

/-- The per-finding inline-comment construction (src/providers.ts lines
170–197): patch lookup and truthiness check, `line <= 0` check, then
position resolution; any failure skips the comment. -/
def commentFor (patches : Str → Option Str) (f : RFinding) : Option RComment :=
  match f.line with
  | none => none
  | some line =>
    match patches f.filename with
    | none => none
    | some patch =>
      if patch = [] then none
      else if line ≤ 0 then none
      else
        match getPositionInDiff patch line with
        | none => none
        | some position => some ⟨f.filename, position, inlineCommentBody f⟩

/-- The inline-comments list: findings with a defined `line`, mapped to
comments, dropping the skipped ones (src/providers.ts lines 168–198). -/
def inlineComments (patches : Str → Option Str) (findings : List RFinding) : List RComment :=
  (findings.filter fun f => f.line.isSome).filterMap (commentFor patches)

/-- The three possible outbound payload shapes of
`ReviewEngineCore.postReview`. -/
inductive PostAction where
  | issueComment (body : Str)
  | noPost
  | prReview (body : Str) (event : Str) (comments : List RComment)
deriving DecidableEq, Repr

/-- The payload-shape decision of `ReviewEngineCore.postReview`
(src/providers.ts lines 203–226). -/
def postReview (ctx : PostCtx) (patches : Str → Option Str)
    (findings : List RFinding) : PostAction :=
  let body := reviewBody ctx findings
  let comments := inlineComments patches findings
  if comments.length = 0 ∧ findings.length > 0 then .issueComment body
  else if comments.length = 0 ∧ findings.length = 0 then .noPost
  else
    .prReview body
      (if (findings.filter isHighF).length > 0 then ("REQUEST_CHANGES").data
       else ("COMMENT").data)
      comments

/-! ## Response extractor (src/scripts/smartfix/engines/analyser.ts, parseLLMResponse) -/

/-- `Partial<FixResult>`: every field may be absent. -/
structure FixPartial where
  confidence : Option Str
  fixType : Option Str
  description : Option Str
  fileChanges : Option Str
  commands : Option (List Str)
  manualSteps : Option (List Str)
deriving DecidableEq, Repr

/-- Model of the fenced-code-block regex
`/```(?:json)?\s*\n?([\s\S]*?)\n?```/` followed by the truthiness check on
the captured group and the `.trim()` the caller applies to it: the trimmed
interior of the first fenced block (an optional `json` tag skipped), or
`none` when there is no closed block or its interior trims to nothing. -/
def blockExtract (s : Str) : Option Str :=
  match findSeg (('`' :: '`' :: '`' :: [])) s with
  | none => none
  | some (_, rest) =>
    let rest := if hasPre (('j' :: 's' :: 'o' :: 'n' :: [])) rest then rest.drop 4 else rest
    match findSeg (('`' :: '`' :: '`' :: [])) rest with
    | none => none
    | some (inner, _) =>
      if trimWs inner = [] then none else some (trimWs inner)

/-- Model of the greedy object-span regex `/\{[\s\S]*\}/`: from the first
`{` through the last `}`, provided the `}` comes after the `{`. -/
def braceExtract (s : Str) : Option Str :=
  let t := s.dropWhile fun c => c ≠ '\x7b'
  let u := (t.reverse.dropWhile fun c => c ≠ '\x7d').reverse
  if u = [] then none else some u

/-- The fallback record returned from inside the inner `try` when neither a
fenced block nor an object span is found. -/
def innerFallback (text : Str) : FixPartial :=
  ⟨some (("low").data), some (("suggestion").data), some (trimWs text), some [], none, none⟩

/-- The last-resort record of the outer `catch` (a structured attempt was
found but failed to parse). -/
def outerFallback (text : Str) : FixPartial :=
  ⟨some (("low").data), some (("suggestion").data),
   some (if trimWs text = [] then ("No solution generated").data else trimWs text),
   some [], none, none⟩

/-- `parseLLMResponse` (analyser.ts lines 27–62), parameterized by the
`JSON.parse`-and-cast oracle `jp` (`none` models a parse exception). -/
def parseLLMResponse (jp : Str → Option FixPartial) (text : Str) : FixPartial :=
  match jp text with
  | some r => r
  | none =>
    match blockExtract text with
    | some g =>
      match jp g with
      | some r => r
      | none => outerFallback text
    | none =>
      match braceExtract text with
      | some b =>
        match jp b with
        | some r => r
        | none => outerFallback text
      | none => innerFallback text

/-! ## Provider template (src/providers/api-provider-base.ts, generateReview) -/

/-- A JSON value, as delivered by `response.json()`. -/
inductive Js where
  | null
  | bool (b : Bool)
  | num (n : Int)
  | str (s : Str)
  | arr (elems : List Js)
  | obj (fields : List (Str × Js))

/-- Property access `value[key]` on a JSON value (`none` = `undefined`). -/
def jsGet : Js → Str → Option Js
  | .obj kvs, k => lookupKV kvs k
  | _, _ => none
where
  lookupKV : List (Str × Js) → Str → Option Js
    | [], _ => none
    | (k', v) :: rest, k => if k' = k then some v else lookupKV rest k

/-- JS truthiness of a possibly-undefined JSON value. -/
def jsTruthy : Option Js → Bool
  | none => false
  | some .null => false
  | some (.bool b) => b
  | some (.num n) => !decide (n = 0)
  | some (.str s) => !s.isEmpty
  | some (.arr _) => true
  | some (.obj _) => true

def escC (c : Char) : Str :=
  if c = '"' then ('\\' :: '"' :: [])
  else if c = '\\' then ('\\' :: '\\' :: [])
  else if c = '\n' then ('\\' :: 'n' :: [])
  else if c = '\r' then ('\\' :: 'r' :: [])
  else if c = '\t' then ('\\' :: 't' :: [])
  else [c]

def jsQuote (s : Str) : Str :=
  '"' :: s.foldr (fun c acc => escC c ++ acc) ('"' :: [])

mutual

/-- `JSON.stringify`. -/
def stringify : Js → Str
  | .null => ("null").data
  | .bool true => ("true").data
  | .bool false => ("false").data
  | .num n => intStr n
  | .str s => jsQuote s
  | .arr l => '[' :: stringifyArr l ++ (']' :: [])
  | .obj l => '\x7b' :: stringifyObj l ++ ('\x7d' :: [])

def stringifyArr : List Js → Str
  | [] => []
  | [x] => stringify x
  | x :: y :: rest => stringify x ++ ',' :: stringifyArr (y :: rest)

def stringifyObj : List (Str × Js) → Str
  | [] => []
  | [(k, v)] => jsQuote k ++ ':' :: stringify v
  | (k, v) :: x :: rest => jsQuote k ++ ':' :: stringify v ++ ',' :: stringifyObj (x :: rest)

end

/-- The HTTP response as seen by `ApiProviderBase.generateReview`; `data`
is the value `response.json()` resolves to (the HTTP client is an
external collaborator, treated as given). -/
structure ApiResp where
  status : Nat
  statusText : Str
  bodyText : Str
  data : Js

/-- `Response.ok` per the fetch specification: status in 200–299. -/
def respOk (r : ApiResp) : Bool :=
  decide (200 ≤ r.status) && decide (r.status ≤ 299)

/-- The thrown error's message:
`LLM API Error (name): status - statusText. Response: body`. -/
def apiErrorMsg (name : Str) (r : ApiResp) : Str :=
  ("LLM API Error (").data ++ name ++ ("): ").data ++ natStr r.status ++
  (" - ").data ++ r.statusText ++ (". Response: ").data ++ r.bodyText

/-- The chat-completion branch:
`data.choices && data.choices.length > 0 && data.choices[0].message`,
returning `data.choices[0].message.content || ''`. -/
def choicesContent (data : Js) : Option Js :=
  match jsGet data (("choices").data) with
  | some (.arr (c0 :: _)) =>
    match jsGet c0 (("message").data) with
    | some m =>
      if jsTruthy (some m) then
        some (match jsGet m (("content").data) with
              | some c => if jsTruthy (some c) then c else .str []
              | none => .str [])
      else none
    | none => none
  | _ => none

/-- The generic fallback branch: `data.message && data.message.content`. -/
def messageContent (data : Js) : Option Js :=
  match jsGet data (("message").data) with
  | some m =>
    if jsTruthy (some m) then
      match jsGet m (("content").data) with
      | some c => if jsTruthy (some c) then some c else none
      | none => none
    else none
  | none => none

/-- `ApiProviderBase.generateReview` (api-provider-base.ts lines 39–74)
after the fetch resolves: throw on a non-ok status, otherwise extract the
review text from the parsed JSON. -/
def generateReview (name : Str) (r : ApiResp) : Except Str Js :=
  if !respOk r then .error (apiErrorMsg name r)
  else
    match choicesContent r.data with
    | some v => .ok v
    | none =>
      match messageContent r.data with
      | some v => .ok v
      | none => .ok (.str (stringify r.data))

/-! ## Standalone analysis engine (analyser.ts, analyzeWithAnalyser) -/

structure TsError where
  file : Str
  line : Int
  message : Str
deriving DecidableEq, Repr

structure ErrorGroup where
  code : Str
  pattern : Str
  count : Nat
  errors : List TsError
deriving DecidableEq, Repr

structure AnalyserConfig where
  model : Option Str
  ollamaHost : Str
  streaming : Bool
deriving DecidableEq, Repr

/-- A completed `FixResult` (all fields filled in). -/
structure FixResult where
  confidence : Str
  fixType : Str
  description : Str
  fileChanges : Str
  commands : List Str
  manualSteps : List Str
deriving DecidableEq, Repr

/-- The example-errors block: first three errors as `file:line - message`. -/
def exampleErrors (g : ErrorGroup) : Str :=
  joinSep (('\n' :: []))
    ((g.errors.take 3).map fun e => e.file ++ ':' :: intStr e.line ++ (" - ").data ++ e.message)

/-- The prompt for one group (analyser.ts lines 85–97). -/
def buildPrompt (tmpl : Option Str) (g : ErrorGroup) : Str :=
  match tmpl with
  | some t =>
    replaceSeg (("\x7b\x7bEXAMPLE_ERRORS\x7d\x7d").data) (exampleErrors g)
      (replaceSeg (("\x7b\x7bERROR_COUNT\x7d\x7d").data) (natStr g.count)
        (replaceSeg (("\x7b\x7bERROR_PATTERN\x7d\x7d").data) g.pattern
          (replaceSeg (("\x7b\x7bERROR_CODE\x7d\x7d").data) g.code
            (replaceSeg (("\x7b\x7bBUILD_ERRORS\x7d\x7d").data) (exampleErrors g) t))))
  | none =>
    ("Analyze TypeScript error ").data ++ g.code ++ (": ").data ++ g.pattern ++
    (". Return JSON with: confidence, fixType, description, fileChanges.").data

/-- The outbound request for one group; `timeoutMs` is the argument of
`AbortSignal.timeout` (analyser.ts line 113). -/
structure OllamaRequest where
  url : Str
  model : Option Str
  prompt : Str
  stream : Bool
  timeoutMs : Nat
deriving DecidableEq, Repr

def requestFor (cfg : AnalyserConfig) (tmpl : Option Str) (g : ErrorGroup) : OllamaRequest :=
  ⟨cfg.ollamaHost ++ ("/api/generate").data, cfg.model, buildPrompt tmpl g,
   cfg.streaming, 300000⟩

/-- The outcome of one request, as seen by the per-group `try` block:
a successfully assembled raw response string, a non-ok HTTP status with
its body text, or a thrown exception (a timeout surfaces as an exception
named `TimeoutError`). -/
inductive ReqResult where
  | httpOk (raw : Str)
  | httpError (status : Nat) (text : Str)
  | exn (name : Str) (msg : Str)
deriving DecidableEq, Repr

/-- `parsed.x || default` with JS truthiness on strings. -/
def orStr (v : Option Str) (dflt : Str) : Str :=
  match v with
  | some s => if s = [] then dflt else s
  | none => dflt

/-- The manual-intervention `FixResult` substituted by the `catch` block
(analyser.ts lines 160–183). -/
def catchFix (name msg : Str) : FixResult :=
  let errorMsg :=
    if name = ("TimeoutError").data || segB (("timeout").data) msg then
      ("Request timed out after 300 seconds. Try using --stream or a faster model.").data
    else msg
  ⟨("low").data, ("manual").data, ("Error: ").data ++ errorMsg, [], [],
   [("Investigate the error manually").data, ("Check Ollama service status").data]⟩

/-- The message of the error thrown on a non-ok status (analyser.ts line 118). -/
def ollamaErrMsg (status : Nat) (text : Str) : Str :=
  ("Ollama API error: ").data ++ natStr status ++ (" - ").data ++ text

/-- Processing of one group: build the complete `FixResult` from the
parsed response (lines 144–158), or substitute the manual-intervention
result for any failure (lines 160–183). -/
def processGroup (jp : Str → Option FixPartial) (res : ReqResult) (g : ErrorGroup) : FixResult :=
  match res with
  | .httpOk raw =>
    let parsed := parseLLMResponse jp raw
    ⟨orStr parsed.confidence (("medium").data),
     orStr parsed.fixType (("suggestion").data),
     orStr parsed.description raw,
     orStr parsed.fileChanges (joinSep ((", ").data) (g.errors.map fun e => e.file)),
     parsed.commands.getD [],
     parsed.manualSteps.getD []⟩
  | .httpError status text => catchFix (("Error").data) (ollamaErrMsg status text)
  | .exn name msg => catchFix name msg

/-- `analyzeWithAnalyser` (analyser.ts lines 68–187): the sequential loop
over error groups, parameterized by the request oracle. -/
def analyzeWithAnalyser (jp : Str → Option FixPartial) (oracle : OllamaRequest → ReqResult)
    (cfg : AnalyserConfig) (tmpl : Option Str) (groups : List ErrorGroup) :
    List (ErrorGroup × FixResult) :=
  groups.map fun g => (g, processGroup jp (oracle (requestFor cfg tmpl g)) g)

/-! ## ReviewEngine.postReview (src/review-engine.ts lines 213–277) -/

/-- `ReviewFinding` of src/review-engine.ts: `severity` is one of the three
literals and `suggestion` is required. -/
inductive Sev2 where
  | high
  | medium
  | low
deriving DecidableEq, Repr

structure EngineFinding where
  severity : Sev2
  category : Str
  filename : Str
  line : Option Int
  message : Str
  suggestion : Str
deriving DecidableEq, Repr

def sevName : Sev2 → Str
  | .high => ("high").data
  | .medium => ("medium").data
  | .low => ("low").data

def severityEmoji : Sev2 → Str
  | .high => ("🔴").data
  | .medium => ("🟡").data
  | .low => ("🔵").data

/-- `categoryEmoji[finding.category] || '📌'`. -/
def categoryEmoji (c : Str) : Str :=
  if c = ("bug").data then ("🐛").data
  else if c = ("security").data then ("🔒").data
  else if c = ("performance").data then ("⚡").data
  else if c = ("style").data then ("🎨").data
  else if c = ("best-practice").data then ("✨").data
  else ("📌").data

def emojiFor (f : EngineFinding) : Str :=
  severityEmoji f.severity ++ ' ' :: categoryEmoji f.category

/-- One body section per finding (lines 251–253). -/
def engineEntry (f : EngineFinding) : Str :=
  ("### ").data ++ emojiFor f ++ ' ' :: f.filename ++
  (match f.line with
   | some l => if l = 0 then [] else (" (line ").data ++ intStr l ++ (")").data
   | none => []) ++
  ("\n**Issue:** ").data ++ f.message ++ ("\n**Fix:** ").data ++ f.suggestion ++ ("\n\n").data

def engineEntries (fs : List EngineFinding) : Str := concatStr engineEntry fs

/-- The body built by `ReviewEngine.postReview` (lines 235–254). -/
def engineBody (modelName : Str) (findings : List EngineFinding) : Str :=
  ("## 🤖 AI Code Review (").data ++ modelName ++ (")\n\n").data ++
  ("Found ").data ++ natStr findings.length ++ (" issue").data ++
  (if findings.length > 1 then ("s").data else []) ++ (":\n\n").data ++
  engineEntries findings

structure LineComment where
  path : Str
  line : Int
  body : Str
deriving DecidableEq, Repr

/-- The inline comment pushed for a finding with a truthy `line`
(lines 243–249). -/
def engineCommentFor (f : EngineFinding) : Option LineComment :=
  match f.line with
  | none => none
  | some l =>
    if l = 0 then none
    else
      some ⟨f.filename, l,
        emojiFor f ++ (" **").data ++ upperStr (sevName f.severity) ++ ("** - ").data ++
        f.category ++ ("\n\n").data ++ f.message ++
        ("\n\n💡 **Suggestion:** ").data ++ f.suggestion⟩

/-- All inline comments collected by the loop, in input order. -/
def engineComments (findings : List EngineFinding) : List LineComment :=
  findings.filterMap engineCommentFor

/-- The `createReview` call issued by `ReviewEngine.postReview`: note the
`comments.slice(0, 30)` truncation (line 264). -/
structure EngineReviewCall where
  body : Str
  event : Str
  comments : List LineComment
deriving DecidableEq, Repr

def enginePostReview (modelName : Str) (findings : List EngineFinding) : EngineReviewCall :=
  ⟨engineBody modelName findings, ("COMMENT").data, (engineComments findings).take 30⟩

/-! ## Concrete example inputs used by the counterexamples and witnesses -/

/-- The patch of the spec's §8 scenario. -/
def scenarioPatch : Str := ("@@ -1,2 +1,3 @@\n line1\n+line2\n line3").data

/-- A patch whose only `@@` line matches the code's lax header pattern but
is not a full `@@ -o,p +n,q @@` header. -/
def laxOnlyPatch : Str := ("@@ -9,9 +9\n x").data

/-- A patch with no hunk headers at all. -/
def headerlessPatch : Str := ("+x").data

/-- A candidate whose five fields are all defined, with `suggestion` the
empty string. -/
def emptySuggCandidate : Candidate :=
  ⟨some (("high").data), some (("bug").data), some (("a.ts").data), none,
   some (("needs a null check").data), some []⟩

def sampleCtx : PostCtx := ⟨("ollama").data, ("llama3").data, none⟩

/-- A patch mapping with no entries (every lookup misses). -/
def noPatches : Str → Option Str := fun _ => none

/-- A high-severity finding on line 5 of a file with no patch. -/
def sampleFinding : RFinding :=
  ⟨some (("high").data), ("bug").data, ("a.ts").data, some 5,
   ("possible crash").data, some []⟩

/-- A JSON-parse oracle that always fails. -/
def jpNone : Str → Option FixPartial := fun _ => none

/-- A 200 response whose body is `{"message":{"content":""}}`. -/
def respMsgEmpty : ApiResp :=
  ⟨200, [], [],
   Js.obj [((("message").data), Js.obj [((("content").data), Js.str [])])]⟩

/-- A 200 response with a chat-completion shape carrying content "hi". -/
def respChoices : ApiResp :=
  ⟨200, [], [],
   Js.obj [((("choices").data),
            Js.arr [Js.obj [((("message").data),
                             Js.obj [((("content").data), Js.str (("hi").data))])]])]⟩

def sampleGroup : ErrorGroup := ⟨("TS2304").data, ("Cannot find name").data, 1, []⟩

def sampleCfg : AnalyserConfig := ⟨none, ("http://localhost:11434").data, false⟩

/-- A request oracle under which every request times out. -/
def oracleTimeout : OllamaRequest → ReqResult :=
  fun _ => .exn (("TimeoutError").data) []

def sampleEngineFinding : EngineFinding :=
  ⟨.high, ("bug").data, ("a.ts").data, some 3, ("off by one").data, ("fix the bound").data⟩

/-! ## Helper lemmas -/

theorem hasPre_cons_iff {p : Char} {ps s : Str} :
    hasPre (p :: ps) s = true ↔ ∃ t, s = p :: t ∧ hasPre ps t = true := by
  cases s with
  | nil => simp [hasPre]
  | cons c cs =>
    simp only [hasPre, Bool.and_eq_true, decide_eq_true_eq]
    constructor
    · rintro ⟨rfl, h⟩
      exact ⟨cs, rfl, h⟩
    · rintro ⟨t, ht, h⟩
      cases ht
      exact ⟨rfl, h⟩

theorem hasPre_self_append (p r : Str) : hasPre p (p ++ r) = true := by
  induction p with
  | nil => rfl
  | cons c cs ih => simp [hasPre, ih]

theorem hasPre_append_eq {p s : Str} (h : hasPre p s = true) :
    s = p ++ s.drop p.length := by
  induction p generalizing s with
  | nil => simp
  | cons c cs ih =>
    rcases hasPre_cons_iff.mp h with ⟨t, rfl, ht⟩
    simpa using ih ht

theorem dropPre_self_append (p r : Str) : dropPre p (p ++ r) = some r := by
  simp [dropPre, hasPre_self_append, List.drop_left]

theorem findSeg_sound {seg s p r : Str} (h : findSeg seg s = some (p, r)) :
    s = p ++ seg ++ r := by
  induction s generalizing p r with
  | nil =>
    by_cases hs : seg.isEmpty
    · simp only [findSeg, hs, if_true, Option.some.injEq, Prod.mk.injEq] at h
      rcases h with ⟨rfl, rfl⟩
      simp [List.isEmpty_iff.mp hs]
    · simp [findSeg, hs] at h
  | cons c cs ih =>
    by_cases hp : hasPre seg (c :: cs) = true
    · simp only [findSeg, hp, if_true, Option.some.injEq, Prod.mk.injEq] at h
      rcases h with ⟨rfl, rfl⟩
      simpa using hasPre_append_eq hp
    · simp only [findSeg, hp, if_false, Bool.false_eq_true] at h
      rcases hf : findSeg seg cs with _ | pr
      · rw [hf] at h
        exact absurd h (by simp)
      · rw [hf] at h
        rcases pr with ⟨p', r'⟩
        simp only [Option.some.injEq, Prod.mk.injEq] at h
        rcases h with ⟨rfl, rfl⟩
        simpa using ih hf

theorem digitsRun_append {d r : Str} (hd : ∀ c ∈ d, isDigitC c = true)
    (hr : ∀ c t, r = c :: t → isDigitC c = false) :
    digitsRun (d ++ r) = (d, r) := by
  induction d with
  | nil =>
    cases r with
    | nil => rfl
    | cons c t => simp [digitsRun, hr c t rfl]
  | cons a d ih =>
    have ha : isDigitC a = true := hd a (by simp)
    have ih' := ih fun c hc => hd c (by simp [hc])
    simp only [digitsRun, Prod.mk.injEq] at ih'
    simp [digitsRun, ha, ih'.1, ih'.2]

theorem mem_takeWhile_ws {c : Char} {s : Str} (h : c ∈ s.takeWhile isWsChar) :
    isWsChar c = true :=
  List.mem_takeWhile_imp h

theorem trimWs_ne_nil {c : Char} {s : Str} (hc : c ∈ s) (hw : isWsChar c = false) :
    trimWs s ≠ [] := by
  intro h0
  have h1 : (s.dropWhile isWsChar).reverse.dropWhile isWsChar = [] := by
    simpa [trimWs] using congrArg List.reverse h0
  have h2 : ∀ x ∈ (s.dropWhile isWsChar).reverse, isWsChar x = true := by
    intro x hx
    exact List.dropWhile_eq_nil_iff.mp h1 x hx
  have hc' : c ∈ s.dropWhile isWsChar := by
    have := List.takeWhile_append_dropWhile (p := isWsChar) (l := s)
    rw [← this] at hc
    rcases List.mem_append.mp hc with h | h
    · exact absurd (mem_takeWhile_ws h) (by simp [hw])
    · exact h
  have := h2 c (List.mem_reverse.mpr hc')
  simp [hw] at this

theorem segIn_refl (s : Str) : SegIn s s := ⟨[], [], by simp⟩

theorem segIn_left {g s : Str} (a : Str) (h : SegIn g s) : SegIn g (a ++ s) := by
  rcases h with ⟨p, r, rfl⟩
  exact ⟨a ++ p, r, by simp [List.append_assoc]⟩

theorem segIn_right {g s : Str} (b : Str) (h : SegIn g s) : SegIn g (s ++ b) := by
  rcases h with ⟨p, r, rfl⟩
  exact ⟨p, r ++ b, by simp [List.append_assoc]⟩

theorem segIn_concatStr {g : α → Str} {f : α} {l : List α} (h : f ∈ l) :
    SegIn (g f) (concatStr g l) := by
  induction l with
  | nil => cases h
  | cons x xs ih =>
    rcases List.mem_cons.mp h with rfl | h'
    · exact ⟨[], concatStr g xs, by simp [concatStr]⟩
    · exact segIn_left (g x) (ih h')

theorem filter_length_pos_iff_any {l : List α} {p : α → Bool} :
    0 < (l.filter p).length ↔ l.any p = true := by
  rw [List.length_pos, Ne, List.filter_eq_nil_iff, List.any_eq_true]
  push_neg
  simp only [not_not]

theorem laxHeaderAt_shape {d1 d2 d3 r : Str}
    (h1 : ∀ c ∈ d1, isDigitC c = true) (n1 : d1 ≠ [])
    (h2 : ∀ c ∈ d2, isDigitC c = true) (n2 : d2 ≠ [])
    (h3 : ∀ c ∈ d3, isDigitC c = true) (n3 : d3 ≠ [])
    (hr : ∀ c t, r = c :: t → isDigitC c = false) :
    laxHeaderAt ('@' :: '@' :: ' ' :: '-' ::
      (d1 ++ ',' :: (d2 ++ ' ' :: '+' :: (d3 ++ r)))) = some (parseDigits d3) := by
  have e1 : digitsRun (d1 ++ ',' :: (d2 ++ ' ' :: '+' :: (d3 ++ r))) =
      (d1, ',' :: (d2 ++ ' ' :: '+' :: (d3 ++ r))) := by
    refine digitsRun_append h1 ?_
    intro c t h
    injection h with hc ht
    subst hc
    decide
  have e2 : digitsRun (d2 ++ ' ' :: '+' :: (d3 ++ r)) =
      (d2, ' ' :: '+' :: (d3 ++ r)) := by
    refine digitsRun_append h2 ?_
    intro c t h
    injection h with hc ht
    subst hc
    decide
  have e3 : digitsRun (d3 ++ r) = (d3, r) := digitsRun_append h3 hr
  have hdp : dropPre ('@' :: '@' :: ' ' :: '-' :: [])
      ('@' :: '@' :: ' ' :: '-' :: (d1 ++ ',' :: (d2 ++ ' ' :: '+' :: (d3 ++ r)))) =
      some (d1 ++ ',' :: (d2 ++ ' ' :: '+' :: (d3 ++ r))) := by
    simp [dropPre, hasPre]
  have hdp2 : dropPre (' ' :: '+' :: []) (' ' :: '+' :: (d3 ++ r)) = some (d3 ++ r) := by
    simp [dropPre, hasPre]
  have hn1 : d1.isEmpty = false := by simpa using n1
  have hn2 : d2.isEmpty = false := by simpa using n2
  have hn3 : d3.isEmpty = false := by simpa using n3
  simp only [laxHeaderAt, hdp, e1, hn1, Bool.false_eq_true, if_false, e2, hn2,
    hdp2, e3, hn3]

theorem laxHeaderSearch_head {s : Str} {n : Nat} (h : laxHeaderAt s = some n) :
    laxHeaderSearch s = some n := by
  cases s with
  | nil => simp [laxHeaderAt, dropPre, hasPre] at h
  | cons c cs => simp [laxHeaderSearch, h]

theorem specEligible_of_at {l : Str} (h : hasPre ('@' :: '@' :: []) l = true) :
    specEligible l = false := by
  rcases hasPre_cons_iff.mp h with ⟨t, rfl, _⟩
  simp [specEligible, hasPre]

theorem specStep_frozen (hdr : Str → Option Nat) (target : Int) (ls : List Str) :
    ∀ (cur : Int) (pos r : Nat),
      (ls.foldl (specStep hdr target) (cur, pos, some r)).2.2 = some r := by
  induction ls with
  | nil => intro cur pos r; rfl
  | cons l ls ih =>
    intro cur pos r
    rcases hH : hdr l with _ | n
    · by_cases hE : specEligible l = true
      · simpa [specStep, hH, hE] using ih _ _ r
      · simp only [Bool.not_eq_true] at hE
        simpa [specStep, hH, hE] using ih _ _ r
    · simpa [specStep, hH] using ih _ _ r

theorem gpdGo_eq_specLax (target : Int) (ls : List Str) :
    ∀ (cur : Int) (pos : Nat),
      gpdGo target ls cur pos =
        (ls.foldl (specStep specHeaderLax target) (cur, pos, none)).2.2 := by
  induction ls with
  | nil => intro cur pos; rfl
  | cons l ls ih =>
    intro cur pos
    by_cases hat : hasPre ('@' :: '@' :: []) l = true
    · rcases hs : laxHeaderSearch l with _ | n
      · have hE := specEligible_of_at hat
        simp only [specEligible] at hE
        simpa [gpdGo, hat, hs, specStep, specHeaderLax, specEligible, hE] using ih _ _
      · simpa [gpdGo, hat, hs, specStep, specHeaderLax] using ih _ _
    · have hHdr : specHeaderLax l = none := by simp [specHeaderLax, hat]
      by_cases hE : (hasPre ('+' :: []) l || hasPre (' ' :: []) l) = true
      · by_cases hT : cur + 1 = target
        · simp [gpdGo, hat, hE, hT, specStep, hHdr, specEligible,
                specStep_frozen specHeaderLax target ls]
        · simpa [gpdGo, hat, hE, hT, specStep, hHdr, specEligible] using ih _ _
      · simp only [Bool.not_eq_true] at hE
        simpa [gpdGo, hat, hE, specStep, hHdr, specEligible] using ih _ _

theorem strictHeaderLine_facts {l : Str} {n q : Nat} (h : StrictHeaderLine l n q) :
    hasPre ('@' :: '@' :: []) l = true ∧ laxHeaderSearch l = some n := by
  obtain ⟨d1, d2, d3, d4, rest, h1, n1, h2, n2, h3, n3, h4, n4, hl, hn, hq⟩ := h
  have hl' : l = '@' :: '@' :: ' ' :: '-' ::
      (d1 ++ ',' :: (d2 ++ ' ' :: '+' :: (d3 ++ ',' :: (d4 ++ ' ' :: '@' :: '@' :: rest)))) := by
    simpa using hl
  subst hl'
  refine ⟨by simp [hasPre], ?_⟩
  rw [hn]
  refine laxHeaderSearch_head (laxHeaderAt_shape h1 n1 h2 n2 h3 n3 ?_)
  intro c t hct
  injection hct with hc ht
  subst hc
  decide

theorem bodyLine_not_header {l : Str} (h : BodyLine l) :
    hasPre ('@' :: '@' :: []) l = false := by
  rcases h with h | h | h <;>
    (rcases hasPre_cons_iff.mp h with ⟨t, rfl, _⟩; simp [hasPre])

theorem countEligible_nil : countEligible [] = 0 := rfl

theorem countEligible_cons (l : Str) (body : List Str) :
    countEligible (l :: body) =
      (if specEligible l then 1 else 0) + countEligible body := by
  by_cases h : specEligible l = true
  · simp [countEligible, List.filter_cons, h]
    omega
  · simp [countEligible, List.filter_cons, h]

theorem gpdGo_body (target : Int) (body : List Str) :
    ∀ (rest : List Str) (cur : Int) (pos : Nat),
      (∀ l ∈ body, BodyLine l) →
      (∀ k : Nat, 1 ≤ k → k ≤ countEligible body → cur + (k : Int) ≠ target) →
      gpdGo target (body ++ rest) cur pos =
        gpdGo target rest (cur + (countEligible body : Int)) (pos + body.length) := by
  induction body with
  | nil =>
    intro rest cur pos _ _
    simp [countEligible]
  | cons l body ih =>
    intro rest cur pos hb hmiss
    have hbl : BodyLine l := hb l (by simp)
    have hat : hasPre ('@' :: '@' :: []) l = false := bodyLine_not_header hbl
    have hb' : ∀ x ∈ body, BodyLine x := fun x hx => hb x (by simp [hx])
    by_cases hel : specEligible l = true
    · have hCE : countEligible (l :: body) = countEligible body + 1 := by
        rw [countEligible_cons, if_pos hel]; omega
      have hne : cur + 1 ≠ target := by
        have := hmiss 1 (le_refl 1) (by omega)
        simpa using this
      have hel' : (hasPre ('+' :: []) l || hasPre (' ' :: []) l) = true := hel
      have step : gpdGo target ((l :: body) ++ rest) cur pos =
          gpdGo target (body ++ rest) (cur + 1) (pos + 1) := by
        simp [gpdGo, hat, hel', hne]
      have hA : cur + (countEligible (l :: body) : Int) =
          cur + 1 + (countEligible body : Int) := by
        rw [hCE]; push_cast; ring
      have hB : pos + (l :: body).length = pos + 1 + body.length := by
        simp [List.length_cons]; omega
      rw [step, ih rest (cur + 1) (pos + 1) hb' ?_, hA, hB]
      intro k hk1 hk2
      have := hmiss (k + 1) (by omega) (by omega)
      intro hcontra
      apply this
      push_cast at hcontra ⊢
      linarith
    · have hCE : countEligible (l :: body) = countEligible body := by
        rw [countEligible_cons, if_neg hel]; omega
      have hel' : (hasPre ('+' :: []) l || hasPre (' ' :: []) l) = false := by
        simpa [specEligible] using hel
      have step : gpdGo target ((l :: body) ++ rest) cur pos =
          gpdGo target (body ++ rest) cur (pos + 1) := by
        simp [gpdGo, hat, hel']
      have hB : pos + (l :: body).length = pos + 1 + body.length := by
        simp [List.length_cons]; omega
      rw [step, ih rest cur (pos + 1) hb' ?_, hCE, hB]
      intro k hk1 hk2
      exact hmiss k hk1 (by omega)

theorem gpdGo_wf (target : Int) {lines : List Str} {ranges : List (Nat × Nat)}
    (hw : WFLines lines ranges)
    (hout : ∀ r ∈ ranges, target < (r.1 : Int) ∨ (r.1 : Int) + (r.2 : Int) ≤ target) :
    ∀ (cur : Int) (pos : Nat), gpdGo target lines cur pos = none := by
  induction hw with
  | nil => intro cur pos; rfl
  | hunk header body rest n q ranges hH hB hC hrest ih =>
    intro cur pos
    obtain ⟨hat, hsearch⟩ := strictHeaderLine_facts hH
    have step : gpdGo target (header :: (body ++ rest)) cur pos =
        gpdGo target (body ++ rest) ((n : Int) - 1) (pos + 1) := by
      simp [gpdGo, hat, hsearch]
    rw [step, gpdGo_body target body rest ((n : Int) - 1) (pos + 1) hB ?_]
    · refine ih (fun r hr => hout r (by simp [hr])) _ _
    · intro k hk1 hk2
      have houthead := hout (n, q) (by simp)
      rw [hC] at hk2
      simp only at houthead
      intro hcontra
      rcases houthead with h | h <;> omega

/-- C3 (amended): for every *well-formed* patch — a concatenation of hunks,
each introduced by a strict `@@ -o,p +n,q @@` header and whose body lines
begin with `+`, `-` or a space, with exactly `q` addition/context lines —
and every target line outside the new-file range `[n, n+q)` of every hunk,
`getPositionInDiff` returns `NOT_FOUND` (`none`).  (The unamended claim is
false for ill-formed patches: see the counterexample.) -/
theorem c3_amended (patch : Str) (ranges : List (Nat × Nat)) (target : Int)
    (hw : WFLines (splitNl patch) ranges)
    (hout : ∀ r ∈ ranges, target < (r.1 : Int) ∨ (r.1 : Int) + (r.2 : Int) ≤ target) :
    getPositionInDiff patch target = none :=
  gpdGo_wf target hw hout 0 0

/-- C1 counterexample: on the spec's §8 scenario patch with target line 2,
`getPositionInDiff` does not return position 2. -/
theorem c1_counterexample : getPositionInDiff scenarioPatch 2 ≠ some 2 := by decide

/-- C1 (amended): on the patch `"@@ -1,2 +1,3 @@\n line1\n+line2\n line3"`
with target new-file line 2, `getPositionInDiff` returns position 3
(header = position 1, ` line1` = position 2 reaching new line 1,
`+line2` = position 3 reaching new line 2). -/
theorem c1_scenario_position : getPositionInDiff scenarioPatch 2 = some 3 := by decide

/-- C2 counterexample: on the patch `"@@ -9,9 +9\n x"` (whose `@@` line
matches the code's lax header pattern but is not a `@@ -o,p +n,q @@`
header) with target line 9, the code returns position 2 while the
reference walk of §4.1, read with strict headers, returns `NOT_FOUND`. -/
theorem c2_counterexample :
    getPositionInDiff laxOnlyPatch 9 = some 2 ∧ specResolve laxOnlyPatch 9 = none := by
  decide

/-- C2 (amended): for every patch text and every target line,
`getPositionInDiff` equals the reference walk of §4.1 with header
recognition amended to the code's lax rule: a line starting with `@@` in
which `@@ -o,p +n` occurs (the `,q @@` tail not required) resets the
new-file counter to `n - 1`; a line starting with `@@` without such a
match changes no counter beyond the position increment; all other rules
(position increments on every line, `+`/space lines advance the new-file
counter, first eligible match returns the position, otherwise `none`)
are as the claim states them. -/
theorem c2_amended (patch : Str) (targetLine : Int) :
    getPositionInDiff patch targetLine = specResolveLax patch targetLine := by
  unfold getPositionInDiff specResolveLax
  exact gpdGo_eq_specLax targetLine (splitNl patch) 0 0

/-- C2 amended, witness at a concrete input. -/
theorem c2_amended_witness :
    getPositionInDiff scenarioPatch 2 = specResolveLax scenarioPatch 2 :=
  c2_amended scenarioPatch 2

/-- C3 counterexample: the patch `"+x"` contains no hunk headers (its
strict-header list is empty), yet `getPositionInDiff` on target line 1
returns position 1 instead of `NOT_FOUND`. -/
theorem c3_counterexample :
    hunkRanges headerlessPatch = [] ∧ getPositionInDiff headerlessPatch 1 = some 1 := by
  decide

/-- C3 amended, witness: the scenario patch is well-formed with a single
hunk of range `[1, 4)`, and target line 5 (outside it) resolves to none. -/
theorem c3_amended_witness :
    WFLines (splitNl scenarioPatch) [(1, 3)] ∧ getPositionInDiff scenarioPatch 5 = none := by
  have hsplit : splitNl scenarioPatch =
      ("@@ -1,2 +1,3 @@").data :: ((" line1").data :: ("+line2").data :: (" line3").data :: []) := by
    decide
  have hw : WFLines (splitNl scenarioPatch) [(1, 3)] := by
    rw [hsplit]
    refine WFLines.hunk _ ((" line1").data :: ("+line2").data :: (" line3").data :: []) [] 1 3 []
      ?_ ?_ ?_ WFLines.nil
    · exact ⟨('1' :: []), ('2' :: []), ('1' :: []), ('3' :: []), [],
        by decide, by decide, by decide, by decide, by decide, by decide,
        by decide, by decide, by decide, by decide, by decide⟩
    · intro l hl
      simp only [List.mem_cons, List.not_mem_nil, or_false] at hl
      rcases hl with rfl | rfl | rfl
      · exact Or.inr (Or.inr (by decide))
      · exact Or.inl (by decide)
      · exact Or.inr (Or.inr (by decide))
    · decide
  exact ⟨hw, c3_amended scenarioPatch [(1, 3)] 5 hw (by decide)⟩

/-- Boolean form of the validation filter's if-then-else. -/
theorem keep_ite_eq (a b c d e p : Bool) :
    (if !a || !b || !c || !d || !e then false else p) = (a && b && c && d && e && p) := by
  revert a b c d e p
  decide

/-- C4 counterexample: a candidate whose five fields are all defined, with
`suggestion` the empty string, is dropped by the validation filter — the
claim says it is retained. -/
theorem c4_counterexample :
    emptySuggCandidate.suggestion = some [] ∧
    emptySuggCandidate.severity.isSome = true ∧
    emptySuggCandidate.category.isSome = true ∧
    emptySuggCandidate.filename.isSome = true ∧
    emptySuggCandidate.message.isSome = true ∧
    validFindings (emptySuggCandidate :: []) = [] := by
  decide

/-- C4 (amended): the validation filter retains exactly those candidates
whose `severity`, `category`, `filename`, `message` and `suggestion` are
all defined *and non-empty* (JS truthiness: an empty-string `suggestion`
is dropped) *and* whose `severity` is `high` or `medium`; it preserves
the input order of retained candidates (the output is a sublist of the
input) and raises no error for dropped candidates (it is total). -/
theorem c4_amended (candidates : List Candidate) :
    validFindings candidates =
      candidates.filter (fun f =>
        truthyStr f.severity && truthyStr f.category && truthyStr f.filename &&
        truthyStr f.message && truthyStr f.suggestion &&
        (decide (f.severity = some (("high").data)) ||
         decide (f.severity = some (("medium").data)))) ∧
    (validFindings candidates).Sublist candidates := by
  constructor
  · refine List.filter_congr ?_
    intro f _
    rw [keepCandidate, keep_ite_eq]
  · exact List.filter_sublist candidates

/-- C4 amended, witness at a concrete input. -/
theorem c4_amended_witness :
    validFindings (emptySuggCandidate :: []) =
      (emptySuggCandidate :: []).filter (fun f =>
        truthyStr f.severity && truthyStr f.category && truthyStr f.filename &&
        truthyStr f.message && truthyStr f.suggestion &&
        (decide (f.severity = some (("high").data)) ||
         decide (f.severity = some (("medium").data)))) :=
  (c4_amended (emptySuggCandidate :: [])).1

/-- C5: the payload-shape decision of `ReviewEngineCore.postReview`: with
zero resolvable inline comments but at least one finding it posts a plain
issue comment; with zero findings it posts nothing; otherwise it posts a
review whose event is `REQUEST_CHANGES` exactly when a high-severity
finding exists and `COMMENT` otherwise. -/
theorem c5_payloadShape (ctx : PostCtx) (patches : Str → Option Str)
    (findings : List RFinding) :
    postReview ctx patches findings =
      if inlineComments patches findings = [] then
        (if findings = [] then PostAction.noPost
         else PostAction.issueComment (reviewBody ctx findings))
      else
        PostAction.prReview (reviewBody ctx findings)
          (if findings.any isHighF then ("REQUEST_CHANGES").data else ("COMMENT").data)
          (inlineComments patches findings) := by
  unfold postReview
  by_cases hc : inlineComments patches findings = []
  · by_cases hf : findings = []
    · subst hf
      simp [hc]
    · have h2 : 0 < findings.length := List.length_pos.mpr hf
      simp [hc, hf, h2]
  · have h1 : ¬((inlineComments patches findings).length = 0) := by
      simpa [List.length_eq_zero] using hc
    have hnot1 : ¬((inlineComments patches findings).length = 0 ∧ findings.length > 0) :=
      fun h => h1 h.1
    have hnot2 : ¬((inlineComments patches findings).length = 0 ∧ findings.length = 0) :=
      fun h => h1 h.1
    rw [if_neg hc, if_neg hnot1, if_neg hnot2]
    congr 1
    exact if_congr filter_length_pos_iff_any rfl rfl

/-- C5, witness at a concrete input: one finding whose file has no patch
resolves no inline comment, so the issue-comment fallback is chosen. -/
theorem c5_payloadShape_witness :
    postReview sampleCtx noPatches (sampleFinding :: []) =
      PostAction.issueComment (reviewBody sampleCtx (sampleFinding :: [])) := by
  rw [c5_payloadShape]
  have hc : inlineComments noPatches (sampleFinding :: []) = [] := by decide
  rw [if_pos hc, if_neg (by simp)]

theorem bucket_exactlyOne (f : RFinding) :
    (isHighF f).toNat + (isMediumF f).toNat + (isLowF f).toNat + (isOtherF f).toNat = 1 := by
  rcases hs : f.severity with _ | s
  · simp [isHighF, isMediumF, isLowF, isOtherF, truthyStr, hs]
  · by_cases h1 : s = ("high").data
    · subst h1
      simp [isHighF, isMediumF, isLowF, isOtherF, truthyStr, hs]
    · by_cases h2 : s = ("medium").data
      · subst h2
        simp [isHighF, isMediumF, isLowF, isOtherF, truthyStr, hs]
      · by_cases h3 : s = ("low").data
        · subst h3
          simp [isHighF, isMediumF, isLowF, isOtherF, truthyStr, hs]
        · simp [isHighF, isMediumF, isLowF, isOtherF, truthyStr, hs, h1, h2, h3]

theorem length_filter_partition4 (l : List RFinding) :
    (l.filter isHighF).length + (l.filter isMediumF).length +
      (l.filter isLowF).length + (l.filter isOtherF).length = l.length := by
  induction l with
  | nil => rfl
  | cons f l ih =>
    have h := bucket_exactlyOne f
    simp only [List.filter_cons]
    by_cases h1 : isHighF f = true <;> by_cases h2 : isMediumF f = true <;>
      by_cases h3 : isLowF f = true <;> by_cases h4 : isOtherF f = true <;>
      simp [h1, h2, h3, h4] at h ⊢ <;> omega

theorem isOtherF_of_none {f : RFinding} (h1 : ¬ isHighF f = true)
    (h2 : ¬ isMediumF f = true) (h3 : ¬ isLowF f = true) : isOtherF f = true := by
  have h := bucket_exactlyOne f
  simp [h1, h2, h3] at h
  simpa using h

theorem reviewBody_decomp (ctx : PostCtx) (findings : List RFinding) :
    reviewBody ctx findings =
      (("## 🤖 AI Code Review (").data ++ ctx.llmName ++ (" (").data ++ ctx.modelName ++
       ("))\n\n").data ++ statsText ctx ++ ("Found ").data ++ natStr findings.length ++
       (" issue").data ++ (if findings.length ≠ 1 then ("s").data else []) ++ (":\n\n").data) ++
      (sectionFor (("### 🔴 High Priority (").data) (findings.filter isHighF) ++
       (sectionFor (("### 🟡 Medium Priority (").data) (findings.filter isMediumF) ++
        (sectionFor (("### 🔵 Low Priority (").data) (findings.filter isLowF) ++
         sectionFor (("### 📝 Other Issues (").data) (findings.filter isOtherF)))) := by
  simp [reviewBody, List.append_assoc]

theorem segIn_sectionFor {f : RFinding} {bucket : List RFinding} (h : f ∈ bucket)
    (title : Str) : SegIn (entryLine f) (sectionFor title bucket) := by
  have hne : bucket ≠ [] := by rintro rfl; cases h
  rw [sectionFor, if_neg hne]
  refine segIn_left _ ?_
  show SegIn (entryLine f) (entriesText bucket)
  rw [entriesText]
  exact segIn_concatStr h

theorem commentFor_none {patches : Str → Option Str} {f : RFinding} {l : Int}
    (hl : f.line = some l)
    (h : patches f.filename = none ∨ l ≤ 0 ∨
         ∀ p, patches f.filename = some p → getPositionInDiff p l = none) :
    commentFor patches f = none := by
  rcases hp : patches f.filename with _ | p
  · simp [commentFor, hl, hp]
  · rcases h with h | h | h
    · rw [hp] at h
      exact absurd h (by simp)
    · by_cases hp0 : p = [] <;> simp [commentFor, hl, hp, hp0, h]
    · have hgpd := h p hp
      by_cases hp0 : p = [] <;> by_cases hl0 : l ≤ 0 <;>
        simp [commentFor, hl, hp, hp0, hl0, hgpd]

/-- C6: the review body contains the rendered entry of every finding; the
findings are partitioned into the four severity buckets (the bucket sizes
sum to the number of findings, and each bucket preserves input order by
being a `filter` of the input); and a finding whose inline position
cannot be resolved (patch absent, line ≤ 0, or `getPositionInDiff`
returning `NOT_FOUND`) contributes no inline comment while its entry
still appears in the body. -/
theorem c6_bodyCoverage (ctx : PostCtx) (patches : Str → Option Str)
    (findings : List RFinding) :
    ((findings.filter isHighF).length + (findings.filter isMediumF).length +
      (findings.filter isLowF).length + (findings.filter isOtherF).length =
      findings.length) ∧
    (∀ f ∈ findings, SegIn (entryLine f) (reviewBody ctx findings)) ∧
    (∀ f ∈ findings, ∀ l : Int, f.line = some l →
      (patches f.filename = none ∨ l ≤ 0 ∨
       ∀ p, patches f.filename = some p → getPositionInDiff p l = none) →
      commentFor patches f = none) := by
  refine ⟨length_filter_partition4 findings, ?_, ?_⟩
  · intro f hf
    rw [reviewBody_decomp]
    by_cases h1 : isHighF f = true
    · exact segIn_left _
        (segIn_right _ (segIn_sectionFor (List.mem_filter.mpr ⟨hf, h1⟩) _))
    · by_cases h2 : isMediumF f = true
      · exact segIn_left _ (segIn_left _
          (segIn_right _ (segIn_sectionFor (List.mem_filter.mpr ⟨hf, h2⟩) _)))
      · by_cases h3 : isLowF f = true
        · exact segIn_left _ (segIn_left _ (segIn_left _
            (segIn_right _ (segIn_sectionFor (List.mem_filter.mpr ⟨hf, h3⟩) _))))
        · have h4 := isOtherF_of_none h1 h2 h3
          exact segIn_left _ (segIn_left _ (segIn_left _ (segIn_left _
            (segIn_sectionFor (List.mem_filter.mpr ⟨hf, h4⟩) _))))
  · intro f _ l hl h
    exact commentFor_none hl h

/-- C6, witness at a concrete input: a line-5 finding whose file has no
patch appears in the body but yields no inline comment. -/
theorem c6_bodyCoverage_witness :
    SegIn (entryLine sampleFinding) (reviewBody sampleCtx (sampleFinding :: [])) ∧
    commentFor noPatches sampleFinding = none :=
  ⟨(c6_bodyCoverage sampleCtx noPatches (sampleFinding :: [])).2.1 sampleFinding (by simp),
   (c6_bodyCoverage sampleCtx noPatches (sampleFinding :: [])).2.2 sampleFinding (by simp)
     5 rfl (Or.inl rfl)⟩

theorem blockExtract_backtick {s g : Str} (h : blockExtract s = some g) : '`' ∈ s := by
  rcases hf : findSeg ('`' :: '`' :: '`' :: []) s with _ | pr
  · rw [blockExtract, hf] at h
    exact absurd h (by simp)
  · rcases pr with ⟨p, r⟩
    have hs := findSeg_sound hf
    subst hs
    simp

theorem mem_brace_of_dropWhile_ne {s : Str}
    (h : s.dropWhile (fun c => c ≠ '\x7b') ≠ []) : '\x7b' ∈ s := by
  induction s with
  | nil => simp at h
  | cons c cs ih =>
    by_cases hc : c = '\x7b'
    · simp [hc]
    · rw [List.dropWhile_cons, if_pos (by simpa using hc)] at h
      exact List.mem_cons.mpr (Or.inr (ih h))

theorem braceExtract_brace {s u : Str} (h : braceExtract s = some u) : '\x7b' ∈ s := by
  apply mem_brace_of_dropWhile_ne (s := s)
  intro h0
  rw [braceExtract, h0] at h
  simp at h

/-- C7: `parseLLMResponse` is total (the embedding returns a `FixPartial`
for every input, modelling "never throws"), and whenever every structured
parse attempt fails — the direct parse, the fenced-block parse and the
object-span parse — it returns the fallback record with confidence `low`
and fixType `suggestion`, carrying the trimmed raw text as its
description (and the default text only when the trimmed text is empty and
no structured span was present, which cannot happen on the failing
paths). -/
theorem c7_extractorFallback (jp : Str → Option FixPartial) (text : Str)
    (hdirect : jp text = none)
    (hblock : ∀ g, blockExtract text = some g → jp g = none)
    (hbrace : ∀ b, braceExtract text = some b → jp b = none) :
    parseLLMResponse jp text =
      ⟨some (("low").data), some (("suggestion").data), some (trimWs text),
       some [], none, none⟩ := by
  rcases hb : blockExtract text with _ | g
  · rcases hbr : braceExtract text with _ | b
    · simp [parseLLMResponse, hdirect, hb, hbr, innerFallback]
    · have hjb := hbrace b hbr
      have hne := trimWs_ne_nil (braceExtract_brace hbr) (by decide)
      simp [parseLLMResponse, hdirect, hb, hbr, hjb, outerFallback, hne]
  · have hjg := hblock g hb
    have hne := trimWs_ne_nil (blockExtract_backtick hb) (by decide)
    simp [parseLLMResponse, hdirect, hb, hjg, outerFallback, hne]

/-- C7, witness: the empty input yields the low-confidence fallback. -/
theorem c7_extractorFallback_witness :
    parseLLMResponse jpNone [] =
      ⟨some (("low").data), some (("suggestion").data), some (trimWs []),
       some [], none, none⟩ :=
  c7_extractorFallback jpNone [] rfl
    (fun _ hg => Option.noConfusion ((rfl : blockExtract ([] : Str) = none).symm.trans hg))
    (fun _ hb => Option.noConfusion ((rfl : braceExtract ([] : Str) = none).symm.trans hb))

/-- C8 counterexample: on a success response whose body is
`{"message":{"content":""}}`, the `message.content` field is present, yet
`generateReview` returns the raw JSON text instead of the empty content —
the claim's "message.content when present" is not what the code does
(the code requires the content to be *truthy*). -/
theorem c8_counterexample :
    (jsGet respMsgEmpty.data (("message").data)).isSome = true ∧
    generateReview (("openai").data) respMsgEmpty =
      Except.ok (Js.str (stringify respMsgEmpty.data)) ∧
    generateReview (("openai").data) respMsgEmpty ≠ Except.ok (Js.str []) := by
  refine ⟨rfl, rfl, ?_⟩
  intro h
  have e : generateReview (("openai").data) respMsgEmpty =
      Except.ok (Js.str (stringify respMsgEmpty.data)) := rfl
  have h2 := e.symm.trans h
  have hne : stringify respMsgEmpty.data ≠ [] := by
    simp [respMsgEmpty, stringify]
  exact hne (by simpa using h2)

/-- C8 (amended): `generateReview` raises the error carrying the status
and the response body exactly when the status is outside 200–299; on a
success status it returns `choices[0].message.content` (defaulting to the
empty string when that content is absent or falsy) whenever `choices` is
a non-empty array whose first element has a truthy `message`, otherwise
`message.content` whenever both `message` and its `content` are truthy,
otherwise the raw JSON text of the response. -/
theorem c8_amended (name : Str) (r : ApiResp) :
    ((generateReview name r = Except.error (apiErrorMsg name r)) ↔
      (r.status < 200 ∨ 299 < r.status)) ∧
    (200 ≤ r.status → r.status ≤ 299 →
      generateReview name r = Except.ok
        (match choicesContent r.data with
         | some v => v
         | none =>
           match messageContent r.data with
           | some v => v
           | none => Js.str (stringify r.data))) := by
  constructor
  · by_cases hok : respOk r = true
    · have hrange : ¬(r.status < 200 ∨ 299 < r.status) := by
        simp only [respOk, Bool.and_eq_true, decide_eq_true_eq] at hok
        omega
      constructor
      · intro h
        exfalso
        rw [generateReview, if_neg (by simp [hok])] at h
        rcases hc : choicesContent r.data with _ | v
        · rcases hm : messageContent r.data with _ | v
          · simp only [hc, hm] at h
            exact Except.noConfusion h
          · simp only [hc, hm] at h
            exact Except.noConfusion h
        · simp only [hc] at h
          exact Except.noConfusion h
      · intro h
        exact absurd h hrange
    · have hrange : r.status < 200 ∨ 299 < r.status := by
        simp only [respOk, Bool.and_eq_true, decide_eq_true_eq] at hok
        omega
      simp [generateReview, hok, hrange]
  · intro h1 h2
    have hok : respOk r = true := by
      simp only [respOk, Bool.and_eq_true, decide_eq_true_eq]
      omega
    rw [generateReview, if_neg (by simp [hok])]
    rcases hc : choicesContent r.data with _ | v <;>
      rcases hm : messageContent r.data with _ | w <;> simp [hc, hm]

/-- C8 amended, witness: a 200 chat-completion response with content
"hi" returns exactly that content. -/
theorem c8_amended_witness :
    generateReview (("openai").data) respChoices = Except.ok (Js.str (("hi").data)) := by
  have h := (c8_amended (("openai").data) respChoices).2 (by decide) (by decide)
  exact h.trans (by rfl)

/-- C9: the analyser batch loop issues one request per group with the
`AbortSignal.timeout` bound set to 300000 ms (300 seconds); it produces
one result per group (the whole batch always completes); each group's
result is computed independently from its own request outcome; and when a
request ends in an exception (including a timeout) or a non-ok HTTP
status, the substituted `FixResult` has fixType `manual` and confidence
`low`. -/
theorem c9_analyserBatch (jp : Str → Option FixPartial) (oracle : OllamaRequest → ReqResult)
    (cfg : AnalyserConfig) (tmpl : Option Str) (groups : List ErrorGroup) :
    ((analyzeWithAnalyser jp oracle cfg tmpl groups).length = groups.length) ∧
    (∀ g : ErrorGroup, (requestFor cfg tmpl g).timeoutMs = 300000) ∧
    (∀ i : Nat, i < groups.length →
      ∃ g, groups[i]? = some g ∧
        (analyzeWithAnalyser jp oracle cfg tmpl groups)[i]? =
          some (g, processGroup jp (oracle (requestFor cfg tmpl g)) g)) ∧
    (∀ (g : ErrorGroup) (name msg : Str),
      (processGroup jp (ReqResult.exn name msg) g).fixType = ("manual").data ∧
      (processGroup jp (ReqResult.exn name msg) g).confidence = ("low").data) ∧
    (∀ (g : ErrorGroup) (status : Nat) (text : Str),
      (processGroup jp (ReqResult.httpError status text) g).fixType = ("manual").data ∧
      (processGroup jp (ReqResult.httpError status text) g).confidence = ("low").data) := by
  refine ⟨by simp [analyzeWithAnalyser], fun g => rfl, ?_, ?_, ?_⟩
  · intro i hi
    refine ⟨groups[i], List.getElem?_eq_getElem hi, ?_⟩
    simp [analyzeWithAnalyser, List.getElem?_eq_getElem hi]
  · intro g name msg
    exact ⟨rfl, rfl⟩
  · intro g status text
    exact ⟨rfl, rfl⟩

/-- C9, witness: a single group whose request times out. -/
theorem c9_analyserBatch_witness :
    (analyzeWithAnalyser jpNone oracleTimeout sampleCfg none (sampleGroup :: [])).length = 1 ∧
    (requestFor sampleCfg none sampleGroup).timeoutMs = 300000 ∧
    (processGroup jpNone (ReqResult.exn (("TimeoutError").data) []) sampleGroup).fixType =
      ("manual").data := by
  have h := c9_analyserBatch jpNone oracleTimeout sampleCfg none (sampleGroup :: [])
  exact ⟨h.1, h.2.1 sampleGroup, (h.2.2.2.1 sampleGroup (("TimeoutError").data) []).1⟩

/-- C10: `ReviewEngine.postReview` passes at most 30 inline comments to
`createReview` — the posted list is exactly a front truncation of the
full list built from line-bearing findings — while the review body
contains a section for every finding. -/
theorem c10_truncation (modelName : Str) (findings : List EngineFinding) :
    (enginePostReview modelName findings).comments.length ≤ 30 ∧
    (∃ rest, engineComments findings =
      (enginePostReview modelName findings).comments ++ rest) ∧
    (∀ f ∈ findings, SegIn (engineEntry f) (engineBody modelName findings)) := by
  refine ⟨?_, ⟨(engineComments findings).drop 30, ?_⟩, ?_⟩
  · show ((engineComments findings).take 30).length ≤ 30
    simp [List.length_take]
  · show engineComments findings =
      (engineComments findings).take 30 ++ (engineComments findings).drop 30
    exact (List.take_append_drop 30 _).symm
  · intro f hf
    rw [engineBody]
    refine segIn_left _ ?_
    show SegIn (engineEntry f) (engineEntries findings)
    rw [engineEntries]
    exact segIn_concatStr hf

/-- C10, witness at a concrete input. -/
theorem c10_truncation_witness :
    (enginePostReview (("llama3").data) (sampleEngineFinding :: [])).comments.length ≤ 30 ∧
    SegIn (engineEntry sampleEngineFinding)
      (engineBody (("llama3").data) (sampleEngineFinding :: [])) :=
  ⟨(c10_truncation (("llama3").data) (sampleEngineFinding :: [])).1,
   (c10_truncation (("llama3").data) (sampleEngineFinding :: [])).2.2 sampleEngineFinding
     (by simp)⟩
